import Mathlib

/-!
Verification of the dataset-splitting, training-loop, accuracy and
checkpointing logic of the ESC audio-classification trainer
(src/datasets.py, src/models.py, src/classifiers/nn_utils.py).

Machine floats that only ever hold percentages, accuracies and losses are
embedded as rationals; the random permutations drawn by `random_split` and
`np.random.shuffle` are universally quantified permutation lists.
-/

/-- Model of `torch.utils.data.random_split(self, [a, b, c])` (datasets.py
line 84) where `a + b + c` equals the length of the index permutation `perm`
drawn by torch: the three subsets are the consecutive slices of `perm` of
lengths `a`, `b` and the remainder. -/
def random_split (perm : List ℕ) (a b : ℕ) : List ℕ × List ℕ × List ℕ :=
  (perm.take a, (perm.drop a).take b, (perm.drop a).drop b)

/-- Embedding of `SplitableDataset.train_test_split` (datasets.py lines 72-90):
`train_size = int(train_percentage * len(self))`,
`test_size = int(test_percentage * len(self))`,
`valid_size = len(self) - train_size - test_size`, then
`random_split(self, [train_size, valid_size, test_size])`.
Python `int()` of a nonnegative value is the floor. -/
def SplitableDataset.train_test_split (p_train p_test : ℚ) (n : ℕ)
    (perm : List ℕ) : List ℕ × List ℕ × List ℕ :=
  random_split perm ⌊p_train * n⌋₊ (n - ⌊p_train * n⌋₊ - ⌊p_test * n⌋₊)

lemma floor_sizes_le (p_train p_test : ℚ) (n : ℕ)
    (ht : 0 ≤ p_train) (he : 0 ≤ p_test) (hsum : p_train + p_test ≤ 1) :
    ⌊p_train * n⌋₊ + ⌊p_test * n⌋₊ ≤ n := by
  have h1 : (⌊p_train * n⌋₊ : ℚ) ≤ p_train * n :=
    Nat.floor_le (mul_nonneg ht (Nat.cast_nonneg n))
  have h2 : (⌊p_test * n⌋₊ : ℚ) ≤ p_test * n :=
    Nat.floor_le (mul_nonneg he (Nat.cast_nonneg n))
  have h3 : p_train * n + p_test * n ≤ n := by
    have := mul_le_mul_of_nonneg_right hsum (Nat.cast_nonneg n : (0 : ℚ) ≤ n)
    linarith [this]
  have h4 : ((⌊p_train * n⌋₊ + ⌊p_test * n⌋₊ : ℕ) : ℚ) ≤ (n : ℚ) := by
    push_cast
    linarith
  exact_mod_cast h4

/-- Claim C1: for a dataset of length n and nonnegative percentages with
`p_train + p_test <= 1`, the proportional split returns three index lists of
sizes exactly `floor(p_train*n)`, `n - floor(p_train*n) - floor(p_test*n)` and
`floor(p_test*n)`, pairwise disjoint, whose union is the full index range. -/
theorem C1_proportional_split_partition
    (p_train p_test : ℚ) (n : ℕ) (perm : List ℕ)
    (hperm : perm.Perm (List.range n))
    (ht : 0 ≤ p_train) (he : 0 ≤ p_test) (hsum : p_train + p_test ≤ 1) :
    (SplitableDataset.train_test_split p_train p_test n perm).1.length
        = ⌊p_train * n⌋₊ ∧
    (SplitableDataset.train_test_split p_train p_test n perm).2.1.length
        = n - ⌊p_train * n⌋₊ - ⌊p_test * n⌋₊ ∧
    (SplitableDataset.train_test_split p_train p_test n perm).2.2.length
        = ⌊p_test * n⌋₊ ∧
    (SplitableDataset.train_test_split p_train p_test n perm).1.Disjoint
      (SplitableDataset.train_test_split p_train p_test n perm).2.1 ∧
    (SplitableDataset.train_test_split p_train p_test n perm).1.Disjoint
      (SplitableDataset.train_test_split p_train p_test n perm).2.2 ∧
    (SplitableDataset.train_test_split p_train p_test n perm).2.1.Disjoint
      (SplitableDataset.train_test_split p_train p_test n perm).2.2 ∧
    (∀ x, (x ∈ (SplitableDataset.train_test_split p_train p_test n perm).1 ∨
           x ∈ (SplitableDataset.train_test_split p_train p_test n perm).2.1 ∨
           x ∈ (SplitableDataset.train_test_split p_train p_test n perm).2.2) ↔
          x ∈ List.range n) := by
  have hlen : perm.length = n := by simpa using hperm.length_eq
  have hac : ⌊p_train * n⌋₊ + ⌊p_test * n⌋₊ ≤ n :=
    floor_sizes_le p_train p_test n ht he hsum
  have hnd : perm.Nodup := hperm.symm.nodup (List.nodup_range n)
  have hndd : (perm.drop ⌊p_train * n⌋₊).Nodup :=
    (List.drop_sublist _ _).nodup hnd
  refine ⟨?_, ?_, ?_, ?_, ?_, ?_, ?_⟩
  · simp only [SplitableDataset.train_test_split, random_split,
      List.length_take, hlen]
    omega
  · simp only [SplitableDataset.train_test_split, random_split,
      List.length_take, List.length_drop, hlen]
    omega
  · simp only [SplitableDataset.train_test_split, random_split,
      List.length_drop, List.length_take, hlen]
    omega
  · intro x hx hy
    exact List.disjoint_take_drop hnd le_rfl hx (List.take_subset _ _ hy)
  · intro x hx hy
    exact List.disjoint_take_drop hnd le_rfl hx (List.drop_subset _ _ hy)
  · intro x hx hy
    exact List.disjoint_take_drop hndd le_rfl hx hy
  · intro x
    have hsplit :
        (SplitableDataset.train_test_split p_train p_test n perm).1 ++
          ((SplitableDataset.train_test_split p_train p_test n perm).2.1 ++
           (SplitableDataset.train_test_split p_train p_test n perm).2.2)
          = perm := by
      simp only [SplitableDataset.train_test_split, random_split]
      rw [List.take_append_drop, List.take_append_drop]
    constructor
    · intro hx
      have hxp : x ∈ perm := by
        rw [← hsplit]
        simp only [List.mem_append]
        tauto
      exact hperm.mem_iff.mp hxp
    · intro hx
      have hxp : x ∈ perm := hperm.mem_iff.mpr hx
      rw [← hsplit] at hxp
      simp only [List.mem_append] at hxp
      tauto

/-- Witness for C1 at a concrete instance: 10 samples, 70%/15% split,
identity permutation. -/
theorem C1_proportional_split_partition_witness :
    (0 : ℚ) ≤ 7/10 ∧ (7/10 : ℚ) + 3/20 ≤ 1 ∧
    (SplitableDataset.train_test_split (7/10) (3/20) 10 (List.range 10)).1.length
      = ⌊(7/10 : ℚ) * (10 : ℕ)⌋₊ :=
  ⟨by norm_num, by norm_num,
    (C1_proportional_split_partition (7/10) (3/20) 10 (List.range 10)
      (List.Perm.refl _) (by norm_num) (by norm_num) (by norm_num)).1⟩

/-- One pass of the early-stopping bookkeeping of `train` (models.py lines
108-111): if the validation accuracy moved by less than
`eps_early_stopping` from its predecessor the no-change counter is
incremented, otherwise it is reset to 0. -/
def noChangeStep (eps prev val : ℚ) (counter : ℕ) : ℕ :=
  if |prev - val| < eps then counter + 1 else 0

/-- The epoch loop of `train` (models.py lines 61-118) abstracted over the
validation-accuracy sequence `acc` it observes.  `e` is the current epoch
index, `fuel` the number of epochs still allowed by `range(epochs)`, `prev`
the previous validation accuracy (initially 0.0) and `counter` the
no-change counter.  It returns the early-stop epoch (if any) together with
the list of epochs passed to `model.save`: on early stop the save inside
the `break` branch (line 114) and the save after the loop (line 119) both
run with the same loop variable, otherwise only the final save runs with
the last epoch of the range. -/
def trainLoop (acc : ℕ → ℚ) (eps : ℚ) (e fuel : ℕ) (prev : ℚ)
    (counter : ℕ) : Option ℕ × List ℕ :=
  match fuel with
  | 0 => (none, [e - 1])
  | Nat.succ r =>
    let val := acc e
    let c := noChangeStep eps prev val counter
    if 5 < c then (some e, [e, e])
    else trainLoop acc eps (e + 1) r val c

/-- The whole epoch loop of `train`, entered with epoch 0, previous
accuracy 0.0 and counter 0; `none` when `epochs = 0` (the loop body never
runs and the final `model.save(epoch=epoch)` has no loop variable). -/
def trainRun (acc : ℕ → ℚ) (eps : ℚ) (epochs : ℕ) :
    Option (Option ℕ × List ℕ) :=
  if epochs = 0 then none else some (trainLoop acc eps 0 epochs 0 0)

/-- The distinct checkpoint files produced by a list of `model.save` calls:
saving twice with the same epoch hits the same path. -/
def checkpointEpochs (saves : List ℕ) : List ℕ :=
  saves.dedup

/-- The accuracy each epoch is compared against: 0.0 before epoch 0
(models.py line 58), else the previous epoch's validation accuracy. -/
def prevAcc (acc : ℕ → ℚ) (e : ℕ) : ℚ :=
  if e = 0 then 0 else acc (e - 1)

/-- Whether epoch `e` counts as non-improving for `train`. -/
def noChange (acc : ℕ → ℚ) (eps : ℚ) (e : ℕ) : Bool :=
  decide (|prevAcc acc e - acc e| < eps)

/-- Length of the maximal run of consecutive non-improving epochs ending at
epoch `e`; this is the value of the no-change counter after epoch `e`. -/
def plateauLen (acc : ℕ → ℚ) (eps : ℚ) : ℕ → ℕ
  | 0 => if noChange acc eps 0 then 1 else 0
  | Nat.succ e => if noChange acc eps (e + 1) then plateauLen acc eps e + 1 else 0

lemma plateauLen_eq (acc : ℕ → ℚ) (eps : ℚ) (e : ℕ) :
    plateauLen acc eps e
      = if |prevAcc acc e - acc e| < eps
          then (match e with | 0 => 0 | Nat.succ k => plateauLen acc eps k) + 1
          else 0 := by
  cases e with
  | zero => simp [plateauLen, noChange]
  | succ k => simp [plateauLen, noChange]

lemma noChangeStep_plateau (acc : ℕ → ℚ) (eps : ℚ) (e : ℕ) :
    noChangeStep eps (prevAcc acc e) (acc e)
      (match e with | 0 => 0 | Nat.succ k => plateauLen acc eps k)
      = plateauLen acc eps e := by
  rw [noChangeStep, plateauLen_eq]

lemma trainLoop_stops (acc : ℕ → ℚ) (eps : ℚ) (estar : ℕ)
    (h6 : 6 ≤ plateauLen acc eps estar)
    (hmin : ∀ i, i < estar → plateauLen acc eps i < 6) :
    ∀ fuel e prev counter, prev = prevAcc acc e →
      counter = (match e with | 0 => 0 | Nat.succ k => plateauLen acc eps k) →
      e ≤ estar → estar < e + fuel →
      trainLoop acc eps e fuel prev counter = (some estar, [estar, estar]) := by
  intro fuel
  induction fuel with
  | zero =>
    intro e prev counter hp hc h1 h2
    omega
  | succ r ih =>
    intro e prev counter hp hc h1 h2
    rw [trainLoop]
    simp only [hp, hc, noChangeStep_plateau acc eps e]
    by_cases hlt : 5 < plateauLen acc eps e
    · rw [if_pos hlt]
      have heq : e = estar := by
        rcases Nat.lt_or_ge e estar with h | h
        · exact absurd (hmin e h) (by omega)
        · omega
      rw [heq]
    · rw [if_neg hlt]
      have hne : e ≠ estar := by
        intro h
        rw [h] at hlt
        omega
      exact ih (e + 1) (acc e) (plateauLen acc eps e)
        (by simp [prevAcc]) rfl (by omega) (by omega)

lemma plateau_first_eq_six (acc : ℕ → ℚ) (eps : ℚ) (estar : ℕ)
    (h6 : 6 ≤ plateauLen acc eps estar)
    (hmin : ∀ i, i < estar → plateauLen acc eps i < 6) :
    plateauLen acc eps estar = 6 := by
  cases estar with
  | zero =>
    simp only [plateauLen] at h6
    split at h6 <;> omega
  | succ k =>
    have hk : plateauLen acc eps k < 6 := hmin k (by omega)
    simp only [plateauLen] at h6 ⊢
    split at h6 <;> [skip; omega]
    rw [if_pos (by assumption)]
    omega

/-- Claim C2: if the validation-accuracy sequence makes the no-change
counter reach 6 for the first time at epoch `estar` (six consecutive
non-improving epochs) and `estar` is below the epoch cap, then the epoch
loop of `train` stops exactly at `estar` — the 6th consecutive
non-improving epoch — before the cap, and the run produces exactly one
checkpoint file, tagged with `estar`. -/
theorem C2_early_stopping (acc : ℕ → ℚ) (eps : ℚ) (epochs estar : ℕ)
    (h6 : 6 ≤ plateauLen acc eps estar)
    (hmin : ∀ i, i < estar → plateauLen acc eps i < 6)
    (hcap : estar < epochs) :
    trainRun acc eps epochs = some (some estar, [estar, estar]) ∧
    checkpointEpochs [estar, estar] = [estar] ∧
    plateauLen acc eps estar = 6 := by
  refine ⟨?_, ?_, plateau_first_eq_six acc eps estar h6 hmin⟩
  · have h := trainLoop_stops acc eps estar h6 hmin epochs 0 0 0 rfl rfl
      (by omega) (by omega)
    rw [trainRun, if_neg (by omega), h]
  · simp [checkpointEpochs]

/-- Witness for C2: the constant-zero accuracy sequence plateaus from epoch
0 on, so with a cap of 10 epochs the loop stops at epoch 5 (the 6th
consecutive non-improving epoch) with a single checkpoint tagged 5. -/
theorem C2_early_stopping_witness :
    6 ≤ plateauLen (fun _ => 0) 1 5 ∧ (5 : ℕ) < 10 ∧
    trainRun (fun _ => 0) 1 10 = some (some 5, [5, 5]) :=
  ⟨by norm_num [plateauLen, noChange, prevAcc], by norm_num,
    (C2_early_stopping (fun _ => 0) 1 10 5
      (by norm_num [plateauLen, noChange, prevAcc])
      (by
        intro i hi
        interval_cases i <;> norm_num [plateauLen, noChange, prevAcc])
      (by norm_num)).1⟩

/-- The row labels of the annotation table not in `train_index`
(datasets.py line 123, `self.csv[~self.csv.index.isin(self.train_index)]
.index` over the default integer row index 0..n-1). -/
def remainingIndices (n : ℕ) (train_index : List ℕ) : List ℕ :=
  (List.range n).filter (fun i => decide (i ∉ train_index))

/-- Embedding of `SplitableDatasetBin.train_test_split` (datasets.py lines 112-132):
the train subset is `Subset(self, train_index)`; the remaining row labels
are shuffled into `shuffled` and cut into a first half of length
`len // 2` (valid) and the rest (test). -/
def SplitableDatasetBin.train_test_split (train_index shuffled : List ℕ) :
    List ℕ × List ℕ × List ℕ :=
  (train_index, shuffled.take (shuffled.length / 2),
    shuffled.drop (shuffled.length / 2))

/-- Embedding of `ESCDatasetBin.__len__` (datasets.py lines 314-323):
`len(self.csv[self.csv.index.isin(self.train_index)])`, the number of
annotation rows whose label lies in `train_index`. -/
def ESCDatasetBin.len (n : ℕ) (train_index : List ℕ) : ℕ :=
  ((List.range n).filter (fun i => decide (i ∈ train_index))).length

lemma filter_mem_perm (n : ℕ) (t : List ℕ) (hnd : t.Nodup)
    (hsub : ∀ x ∈ t, x < n) :
    ((List.range n).filter (fun i => decide (i ∈ t))).Perm t := by
  apply List.perm_of_nodup_nodup_toFinset_eq
    ((List.nodup_range n).filter _) hnd
  ext x
  simp only [List.mem_toFinset, List.mem_filter, List.mem_range,
    decide_eq_true_eq]
  exact ⟨fun h => h.2, fun h => ⟨hsub x h, h⟩⟩

lemma length_remainingIndices (n : ℕ) (t : List ℕ) (hnd : t.Nodup)
    (hsub : ∀ x ∈ t, x < n) :
    (remainingIndices n t).length = n - t.length := by
  have hsplit :=
    List.length_eq_length_filter_add (l := List.range n)
      (fun i => decide (i ∈ t))
  have hin : ((List.range n).filter (fun i => decide (i ∈ t))).length
      = t.length := (filter_mem_perm n t hnd hsub).length_eq
  have hneg : remainingIndices n t
      = (List.range n).filter (fun i => !(decide (i ∈ t))) := by
    simp [remainingIndices]
  rw [hneg]
  rw [List.length_range] at hsplit
  omega

/-- Claim C3: for the explicit-index split with a duplicate-free
`train_index` of size k inside a table of n rows, the train subset has
size k, valid and test together carry the remaining n - k row labels with
each remaining label in exactly one of them, and their sizes differ by at
most 1. -/
theorem C3_explicit_split (n : ℕ) (train_index shuffled : List ℕ)
    (hnd : train_index.Nodup) (hsub : ∀ x ∈ train_index, x < n)
    (hsh : shuffled.Perm (remainingIndices n train_index)) :
    (SplitableDatasetBin.train_test_split train_index shuffled).1.length
        = train_index.length ∧
    (SplitableDatasetBin.train_test_split train_index shuffled).2.1.length +
      (SplitableDatasetBin.train_test_split train_index shuffled).2.2.length
        = n - train_index.length ∧
    (∀ x ∈ remainingIndices n train_index,
      (x ∈ (SplitableDatasetBin.train_test_split train_index shuffled).2.1 ∧
       x ∉ (SplitableDatasetBin.train_test_split train_index shuffled).2.2) ∨
      (x ∈ (SplitableDatasetBin.train_test_split train_index shuffled).2.2 ∧
       x ∉ (SplitableDatasetBin.train_test_split train_index shuffled).2.1)) ∧
    |((SplitableDatasetBin.train_test_split train_index shuffled).2.1.length : ℤ)
      - ((SplitableDatasetBin.train_test_split train_index shuffled).2.2.length : ℤ)|
        ≤ 1 := by
  have hrem : shuffled.length = n - train_index.length := by
    rw [hsh.length_eq, length_remainingIndices n train_index hnd hsub]
  have hndsh : shuffled.Nodup :=
    hsh.symm.nodup ((List.nodup_range n).filter _)
  have hdisj : List.Disjoint (shuffled.take (shuffled.length / 2))
      (shuffled.drop (shuffled.length / 2)) :=
    List.disjoint_take_drop hndsh le_rfl
  refine ⟨rfl, ?_, ?_, ?_⟩
  · simp only [SplitableDatasetBin.train_test_split, List.length_take,
      List.length_drop]
    omega
  · intro x hx
    have hxs : x ∈ shuffled := hsh.mem_iff.mpr hx
    rw [← List.take_append_drop (shuffled.length / 2) shuffled,
      List.mem_append] at hxs
    rcases hxs with h | h
    · exact Or.inl ⟨h, fun h2 => hdisj h h2⟩
    · exact Or.inr ⟨h, fun h2 => hdisj h2 h⟩
  · simp only [SplitableDatasetBin.train_test_split, List.length_take,
      List.length_drop]
    rw [abs_le]
    constructor <;> omega

/-- Witness for C3: 5 rows, train rows {0,2}, remaining rows {1,3,4}
shuffled to [3,1,4]; valid and test carry 1 + 2 = 3 = 5 - 2 labels. -/
theorem C3_explicit_split_witness :
    ([0, 2] : List ℕ).Nodup ∧
    ([3, 1, 4] : List ℕ).Perm (remainingIndices 5 [0, 2]) ∧
    (SplitableDatasetBin.train_test_split [0, 2] [3, 1, 4]).2.1.length +
      (SplitableDatasetBin.train_test_split [0, 2] [3, 1, 4]).2.2.length
        = 5 - ([0, 2] : List ℕ).length :=
  ⟨by decide, by decide,
    (C3_explicit_split 5 [0, 2] [3, 1, 4] (by decide) (by decide)
      (by decide)).2.1⟩

/-- Claim C9 counterexample: with 3 annotation rows and
`train_index = [1, 2]` — a proper subset of the row labels, since row 0 is
missing — `__len__` returns 2, the remaining labels list is `[0]`, and
every label referenced by the valid and test subsets lies inside
`[0, len)`: the claimed consequence fails at this input. -/
theorem C9_counterexample :
    ESCDatasetBin.len 3 [1, 2] = 2 ∧
    (0 : ℕ) < 3 ∧ (0 : ℕ) ∉ ([1, 2] : List ℕ) ∧
    remainingIndices 3 [1, 2] = [0] ∧
    (∀ x ∈ (SplitableDatasetBin.train_test_split [1, 2] [0]).2.1,
      x < ESCDatasetBin.len 3 [1, 2]) ∧
    (∀ x ∈ (SplitableDatasetBin.train_test_split [1, 2] [0]).2.2,
      x < ESCDatasetBin.len 3 [1, 2]) := by
  decide

/-- Claim C9 amended: `ESCDatasetBin.__len__` returns the number of
annotation rows whose label is in `train_index` (the train-split size),
which is less than the total row count whenever some row label is missing
from `train_index`; and whenever some missing label `j` is at least that
length, the valid/test subsets produced by `train_test_split` reference a
row label outside `[0, len())`. -/
theorem C9_len_and_out_of_range (n : ℕ) (t shuffled : List ℕ) (j : ℕ)
    (hsh : shuffled.Perm (remainingIndices n t))
    (hj : j < n) (hjt : j ∉ t) (hjk : ESCDatasetBin.len n t ≤ j) :
    ESCDatasetBin.len n t < n ∧
    ∃ x, (x ∈ (SplitableDatasetBin.train_test_split t shuffled).2.1 ∨
          x ∈ (SplitableDatasetBin.train_test_split t shuffled).2.2) ∧
         ESCDatasetBin.len n t ≤ x := by
  constructor
  · have hsl : List.Sublist
        ((List.range n).filter (fun i => decide (i ∈ t))) (List.range n) :=
      List.filter_sublist _
    have hle : ESCDatasetBin.len n t ≤ n := by
      have := hsl.length_le
      simpa [ESCDatasetBin.len] using this
    rcases Nat.lt_or_ge (ESCDatasetBin.len n t) n with h | h
    · exact h
    · exfalso
      have hlen : ((List.range n).filter
          (fun i => decide (i ∈ t))).length = (List.range n).length := by
        simp only [List.length_range]
        have : ESCDatasetBin.len n t = n := by omega
        simpa [ESCDatasetBin.len] using this
      have heq := hsl.eq_of_length hlen
      have hjmem : j ∈ (List.range n).filter (fun i => decide (i ∈ t)) := by
        rw [heq]
        exact List.mem_range.mpr hj
      rw [List.mem_filter] at hjmem
      exact hjt (by simpa using hjmem.2)
  · refine ⟨j, ?_, hjk⟩
    have hjrem : j ∈ remainingIndices n t := by
      simp only [remainingIndices, List.mem_filter, List.mem_range,
        decide_eq_true_eq]
      exact ⟨hj, hjt⟩
    have hjs : j ∈ shuffled := hsh.mem_iff.mpr hjrem
    rw [← List.take_append_drop (shuffled.length / 2) shuffled,
      List.mem_append] at hjs
    exact hjs

/-- Witness for C9 amended at 3 rows, train rows {2}: row 1 is missing from
`train_index` and is at least `len() = 1`, so `len() < 3`. -/
theorem C9_len_and_out_of_range_witness :
    (1 : ℕ) < 3 ∧ ESCDatasetBin.len 3 [2] ≤ 1 ∧ ESCDatasetBin.len 3 [2] < 3 :=
  ⟨by decide, by decide,
    (C9_len_and_out_of_range 3 [2] [1, 0] 1 (by decide) (by decide)
      (by decide) (by decide)).1⟩

/-- The constructor arguments of `torch.optim.lr_scheduler.OneCycleLR` as
used by `train`. -/
structure OneCycleConfig where
  max_lr : ℚ
  epochs : ℕ
  steps_per_epoch : ℕ
  pct_start : ℚ
  deriving DecidableEq

/-- The scheduler built by `train` (models.py line 54):
`OneCycleLR(optimizer, max_lr=learning_rate, epochs=100,
steps_per_epoch=len(loaders.train), pct_start=0.1)`.  `train`'s own
`epochs` argument is in scope but the literal 100 is passed instead. -/
def mkScheduler (learning_rate : ℚ) (epochs numTrainBatches : ℕ) :
    OneCycleConfig :=
  { max_lr := learning_rate
    epochs := 100
    steps_per_epoch := numTrainBatches
    pct_start := 1/10 }

/-- Claim C4 counterexample: calling `train` with `epochs = 50` (and any
learning rate and train-loader size, here 1/1000 and 7) builds a scheduler
whose epoch count is 100, not the configured 50. -/
theorem C4_counterexample :
    (mkScheduler (1/1000) 50 7).epochs = 100 ∧
    (mkScheduler (1/1000) 50 7).epochs ≠ 50 := by
  refine ⟨rfl, ?_⟩
  decide

/-- Claim C4 amended: the one-cycle scheduler built by `train` is
parameterized by the configured maximum learning rate, a total epoch count
fixed at the literal 100 (regardless of the `epochs` argument of `train`),
steps-per-epoch equal to the number of train-loader batches, and a warm-up
fraction of exactly 0.1. -/
theorem C4_scheduler_params (learning_rate : ℚ) (epochs numTrainBatches : ℕ) :
    (mkScheduler learning_rate epochs numTrainBatches).max_lr
        = learning_rate ∧
    (mkScheduler learning_rate epochs numTrainBatches).epochs = 100 ∧
    (mkScheduler learning_rate epochs numTrainBatches).steps_per_epoch
        = numTrainBatches ∧
    (mkScheduler learning_rate epochs numTrainBatches).pct_start = 1/10 :=
  ⟨rfl, rfl, rfl, rfl⟩

/-- Embedding of `SaveableModel.save_path` (nn_utils.py lines 141-156): the fixed output
directory `models_saved` joined with `f"{self.name}_{epoch}.pth"`. -/
def SaveableModel.save_path (name : String) (epoch : ℕ) : String :=
  "models_saved/" ++ name ++ "_" ++ toString epoch ++ ".pth"

/-- The file-system state the checkpointing code touches: a map from paths
to saved parameter states plus the set of existing directories. -/
structure FileStore (P : Type) where
  files : String → Option P
  dirs : List String

/-- Embedding of `os.makedirs(out_dir)` guarded by `os.path.exists` (nn_utils.py lines
154-155). -/
def mkdirIfAbsent {P : Type} (fs : FileStore P) (d : String) : FileStore P :=
  if d ∈ fs.dirs then fs else { fs with dirs := d :: fs.dirs }

/-- Embedding of `SaveableModel.save` (nn_utils.py lines 158-167): create the output
directory if needed, then `torch.save(self.state_dict(), path)`, which
overwrites the file at `save_path`. -/
def SaveableModel.save {P : Type} (fs : FileStore P) (name : String)
    (epoch : ℕ) (state : P) : FileStore P :=
  let fs1 := mkdirIfAbsent fs "models_saved"
  { fs1 with
    files := fun p =>
      if p = SaveableModel.save_path name epoch then some state
      else fs1.files p }

/-- Embedding of `SequentialSaveableModel.__init__` (nn_utils.py lines 171-190): the
model name is `"_".join(names)` over the stage names. -/
def SequentialSaveableModel.fullName (names : List String) : String :=
  String.intercalate "_" names

/-- Claim C5: `save(model, epoch)` writes the parameter state to
`models_saved/<name>_<epoch>.pth` where the name is the underscore-join of
the stage names, creating the output directory; re-saving the same
(name, epoch) overwrites, so the final content is the second call's state,
and no other path is touched. -/
theorem C5_save_path_overwrite {P : Type} (fs : FileStore P)
    (names : List String) (epoch : ℕ) (s1 s2 : P) :
    (SaveableModel.save (SaveableModel.save fs
        (SequentialSaveableModel.fullName names) epoch s1)
        (SequentialSaveableModel.fullName names) epoch s2).files
      (SaveableModel.save_path (SequentialSaveableModel.fullName names) epoch)
        = some s2 ∧
    SaveableModel.save_path (SequentialSaveableModel.fullName names) epoch
      = "models_saved/" ++ String.intercalate "_" names ++ "_"
          ++ toString epoch ++ ".pth" ∧
    "models_saved" ∈ (SaveableModel.save fs
        (SequentialSaveableModel.fullName names) epoch s1).dirs ∧
    (∀ p, p ≠ SaveableModel.save_path
        (SequentialSaveableModel.fullName names) epoch →
      (SaveableModel.save (SaveableModel.save fs
          (SequentialSaveableModel.fullName names) epoch s1)
          (SequentialSaveableModel.fullName names) epoch s2).files p
        = fs.files p) := by
  refine ⟨?_, rfl, ?_, ?_⟩
  · simp [SaveableModel.save]
  · simp only [SaveableModel.save, mkdirIfAbsent]
    split
    · assumption
    · exact List.mem_cons_self _ _
  · intro p hp
    by_cases hm : "models_saved" ∈ fs.dirs <;>
      simp [SaveableModel.save, mkdirIfAbsent, hm, hp]

/-- Witness for C5: two saves of epoch 3 for stage names
["mel_spectrogram", "cnn"] into an empty file store leave state 2 at the
checkpoint path and do not touch the path "other". -/
theorem C5_save_path_overwrite_witness :
    (SaveableModel.save (SaveableModel.save
        (⟨fun _ => none, []⟩ : FileStore ℕ)
        (SequentialSaveableModel.fullName ["mel_spectrogram", "cnn"]) 3 1)
        (SequentialSaveableModel.fullName ["mel_spectrogram", "cnn"]) 3 2).files
      (SaveableModel.save_path
        (SequentialSaveableModel.fullName ["mel_spectrogram", "cnn"]) 3)
        = some 2 ∧
    (SaveableModel.save (SaveableModel.save
        (⟨fun _ => none, []⟩ : FileStore ℕ)
        (SequentialSaveableModel.fullName ["mel_spectrogram", "cnn"]) 3 1)
        (SequentialSaveableModel.fullName ["mel_spectrogram", "cnn"]) 3 2).files
      "other" = none :=
  ⟨(C5_save_path_overwrite (⟨fun _ => none, []⟩ : FileStore ℕ)
      ["mel_spectrogram", "cnn"] 3 1 2).1,
    (C5_save_path_overwrite (⟨fun _ => none, []⟩ : FileStore ℕ)
      ["mel_spectrogram", "cnn"] 3 1 2).2.2.2 "other" (by decide)⟩

/-- A batch-producing loader as configured by `DataLoader(dataset,
batch_size, shuffle=...)`. -/
structure DataLoaderCfg (D : Type) where
  dataset : D
  batch_size : ℕ
  shuffle : Bool

/-- The three split datasets held by `TrainValidTestDataset`. -/
structure TrainValidTestDatasetM (D : Type) where
  train : D
  valid : D
  test : D

/-- The three loaders held by `TrainValidTestDataLoader`. -/
structure TrainValidTestDataLoaderM (D : Type) where
  train : DataLoaderCfg D
  valid : DataLoaderCfg D
  test : DataLoaderCfg D

/-- Embedding of `TrainValidTestDataset.into_loaders` (datasets.py lines 36-56): all
three loaders are built with `shuffle=True` and the given batch size. -/
def into_loaders {D : Type} (d : TrainValidTestDatasetM D)
    (batch_size : ℕ := 32) : TrainValidTestDataLoaderM D :=
  { train := ⟨d.train, batch_size, true⟩
    valid := ⟨d.valid, batch_size, true⟩
    test := ⟨d.test, batch_size, true⟩ }

/-- The order in which a torch DataLoader walks its dataset on one
traversal: a fresh random permutation when `shuffle` is set, else the
split-index order. -/
def traversalOrder {D : Type} (cfg : DataLoaderCfg D)
    (indexOrder freshPerm : List ℕ) : List ℕ :=
  if cfg.shuffle then freshPerm else indexOrder

/-- Claim C10: `into_loaders` builds the train, validation and test loaders
all with shuffling enabled, so each traversal of the validation and test
loaders follows a fresh random permutation rather than split-index order. -/
theorem C10_all_loaders_shuffled {D : Type} (d : TrainValidTestDatasetM D)
    (batch_size : ℕ) (indexOrder freshPerm : List ℕ) :
    (into_loaders d batch_size).train.shuffle = true ∧
    (into_loaders d batch_size).valid.shuffle = true ∧
    (into_loaders d batch_size).test.shuffle = true ∧
    traversalOrder (into_loaders d batch_size).valid indexOrder freshPerm
        = freshPerm ∧
    traversalOrder (into_loaders d batch_size).test indexOrder freshPerm
        = freshPerm :=
  ⟨rfl, rfl, rfl, rfl, rfl⟩

/-- Scan underlying `torch.argmax(dim=-1)` over one row of scores: keeps
the index of the first maximal entry. -/
def argmaxGo : List ℚ → ℚ → ℕ → ℕ → ℕ
  | [], _, best, _ => best
  | y :: ys, bv, bi, i =>
    if bv < y then argmaxGo ys y i (i + 1) else argmaxGo ys bv bi (i + 1)

/-- Embedding of `torch.argmax(dim=-1)` on one row of class scores. -/
def argmax : List ℚ → ℕ
  | [] => 0
  | x :: xs => argmaxGo xs x 0 1

/-- Embedding of `torch.nn.Softmax` over one row of logits, with the real exponential
abstracted into `f`: entry `i` becomes `f x_i / (Σ_j f x_j)`.  Every
strictly monotone, positive-on-the-logits `f` (such as exp) fits. -/
def softmax (f : ℚ → ℚ) (l : List ℚ) : List ℚ :=
  l.map (fun x => f x / (l.map f).sum)

/-- Embedding of `softmax(predictions).argmax(dim=-1)` for one row (models.py line 78). -/
def classPrediction (f : ℚ → ℚ) (logits : List ℚ) : ℕ :=
  argmax (softmax f logits)

/-- Per-batch accuracy of `train` (models.py lines 78-79):
`((class_prediction == labels).sum()) / class_prediction.shape[0]`. -/
def batchAccuracy (f : ℚ → ℚ) (preds : List (List ℚ)) (labels : List ℕ) : ℚ :=
  (((preds.zip labels).countP
      (fun pl => classPrediction f pl.1 == pl.2) : ℕ) : ℚ)
    / (preds.length : ℚ)

/-- The fraction of rows whose raw-logit arg-max equals the label. -/
def argmaxAccuracy (preds : List (List ℚ)) (labels : List ℕ) : ℚ :=
  (((preds.zip labels).countP (fun pl => argmax pl.1 == pl.2) : ℕ) : ℚ)
    / (preds.length : ℚ)

/-- The 4-row batch of the spec's accuracy example: logits with arg-max
classes [0, 1, 1, 0]. -/
def demoLogits : List (List ℚ) :=
  [[2, 1], [0, 3], [1, 5], [7, 4]]

/-- The true labels of the spec's accuracy example. -/
def demoLabels : List ℕ :=
  [0, 1, 0, 0]

lemma argmaxGo_map (g : ℚ → ℚ) (hg : ∀ a b : ℚ, a < b ↔ g a < g b) :
    ∀ (ys : List ℚ) (bv : ℚ) (bi i : ℕ),
      argmaxGo (ys.map g) (g bv) bi i = argmaxGo ys bv bi i := by
  intro ys
  induction ys with
  | nil =>
    intro bv bi i
    rfl
  | cons y ys ih =>
    intro bv bi i
    simp only [List.map_cons, argmaxGo]
    by_cases h : bv < y
    · rw [if_pos ((hg bv y).mp h), if_pos h, ih]
    · rw [if_neg (fun hc => h ((hg bv y).mpr hc)), if_neg h, ih]

lemma argmax_map (g : ℚ → ℚ) (hg : ∀ a b : ℚ, a < b ↔ g a < g b)
    (l : List ℚ) : argmax (l.map g) = argmax l := by
  cases l with
  | nil => rfl
  | cons x xs =>
    simp only [List.map_cons, argmax]
    exact argmaxGo_map g hg xs x 0 1

lemma classPrediction_eq_argmax (f : ℚ → ℚ)
    (hf : ∀ a b : ℚ, a < b ↔ f a < f b) (l : List ℚ) (hl : l ≠ [])
    (hpos : ∀ x ∈ l, 0 < f x) : classPrediction f l = argmax l := by
  have hS : 0 < (l.map f).sum := by
    apply List.sum_pos
    · intro x hx
      rcases List.mem_map.mp hx with ⟨y, hy, rfl⟩
      exact hpos y hy
    · simpa using hl
  have hg : ∀ a b : ℚ, a < b ↔
      (fun x => f x / (l.map f).sum) a < (fun x => f x / (l.map f).sum) b := by
    intro a b
    simpa using (hf a b).trans (div_lt_div_iff_of_pos_right hS).symm
  exact argmax_map (fun x => f x / (l.map f).sum) hg l

/-- Claim C6: the per-batch accuracy computed through softmax equals the
fraction of rows whose raw-logit arg-max matches the label, for every
strictly monotone normalizer positive on the logits (as exp is); in
particular on the 4-row batch with arg-max classes [0,1,1,0] against
labels [0,1,0,0] the computed accuracy is 0.75. -/
theorem C6_batch_accuracy (f : ℚ → ℚ)
    (hf : ∀ a b : ℚ, a < b ↔ f a < f b)
    (preds : List (List ℚ)) (labels : List ℕ)
    (hne : ∀ l ∈ preds, l ≠ [])
    (hpos : ∀ l ∈ preds, ∀ x ∈ l, 0 < f x) :
    batchAccuracy f preds labels = argmaxAccuracy preds labels ∧
    (preds = demoLogits → labels = demoLabels →
      batchAccuracy f preds labels = 3/4) := by
  have hmain : batchAccuracy f preds labels = argmaxAccuracy preds labels := by
    unfold batchAccuracy argmaxAccuracy
    congr 2
    apply List.countP_congr
    intro pl hpl
    have hmem : pl.1 ∈ preds := (List.of_mem_zip hpl).1
    rw [classPrediction_eq_argmax f hf pl.1 (hne pl.1 hmem)
      (hpos pl.1 hmem)]
  refine ⟨hmain, ?_⟩
  intro h1 h2
  subst h1
  subst h2
  rw [hmain]
  have hc : ((demoLogits.zip demoLabels).countP
      (fun pl => argmax pl.1 == pl.2)) = 3 := by decide
  unfold argmaxAccuracy
  rw [hc]
  norm_num [demoLogits]

/-- An `exp`-like stand-in used to instantiate C6: strictly monotone and
positive on the demo logits. -/
def expLike : ℚ → ℚ :=
  fun x => x + 100

/-- Witness for C6: with the concrete monotone positive normalizer, the
computed accuracy on the demo batch is 3/4. -/
theorem C6_batch_accuracy_witness :
    batchAccuracy expLike demoLogits demoLabels = 3/4 :=
  (C6_batch_accuracy expLike
      (fun a b => (add_lt_add_iff_right (100 : ℚ)).symm)
      demoLogits demoLabels (by decide)
      (by
        intro l hl x hx
        fin_cases hl <;> fin_cases hx <;> norm_num [expLike])).2 rfl rfl

/-- One row of the annotation table `meta/esc50.csv` as the dataset code
reads it: column 0 is the wav filename, column 1 the fold, column 2 the
integer target label; `esc10` flags membership in the ESC-10 subset. -/
structure EscRow where
  filename : String
  fold : ℕ
  target : ℕ
  esc10 : Bool

/-- The `ESC` enum (datasets.py lines 17-20). -/
inductive ESC where
  | TEN
  | FIFTY
  | TWO
  deriving DecidableEq

/-- Embedding of `ESCDataset.__len__` (datasets.py lines 208-219): the count of rows
flagged `esc10` for `ESC.TEN`, else the full row count of the retained
table. -/
def ESCDataset.len (csv : List EscRow) (categories : ESC) : ℕ :=
  match categories with
  | ESC.TEN => (csv.filter (fun r => r.esc10)).length
  | _ => csv.length

/-- Embedding of `DataFrame.iloc[index, _]` row selection with a Python int index:
succeeds for `-len <= index < len` (negative indices count from the end),
raises IndexError otherwise. -/
def iloc (csv : List EscRow) (i : ℤ) : Option EscRow :=
  if i < 0 then
    if -(csv.length : ℤ) ≤ i then csv[((csv.length : ℤ) + i).toNat]?
    else none
  else csv[i.toNat]?

/-- Embedding of `ESCDataset.__getitem__` (datasets.py lines 251-269): look up the wav
path (`iloc[index, 0]`) and the label (`iloc[index, 2]`) of row `index`;
the result stands for the loaded `(waveform, label)` sample, `none` for
the raised IndexError. -/
def ESCDataset.getItem (csv : List EscRow) (i : ℤ) : Option (String × ℕ) :=
  (iloc csv i).map (fun r => (r.filename, r.target))

/-- Two annotation rows; only the second belongs to ESC-10. -/
def escCsv : List EscRow :=
  [⟨"dog.wav", 1, 0, false⟩, ⟨"rain.wav", 1, 10, true⟩]

/-- Claim C7 counterexample: with categories ESC.TEN, `__len__` is 1 but
index 1 (which is `>= length()`) still returns a sample, and with
categories ESC.FIFTY the negative index -1 (outside `[0, length())`) also
returns a sample instead of failing. -/
theorem C7_counterexample :
    ESCDataset.len escCsv ESC.TEN = 1 ∧
    (ESCDataset.getItem escCsv 1).isSome = true ∧
    ESCDataset.len escCsv ESC.FIFTY = 2 ∧
    (ESCDataset.getItem escCsv (-1)).isSome = true := by
  refine ⟨rfl, ?_, rfl, ?_⟩ <;> decide

lemma getElem?_isSome_iff {α : Type} (l : List α) (n : ℕ) :
    l[n]?.isSome = true ↔ n < l.length := by
  constructor
  · intro h
    by_contra hn
    rw [List.getElem?_eq_none (by omega)] at h
    simp at h
  · intro h
    rw [List.getElem?_eq_getElem h]
    rfl

/-- Claim C7 amended: for a category other than ESC.TEN (so that
`length()` equals the retained row count) and a nonnegative index,
`get(index)` returns a Sample exactly when `index < length()` and fails
exactly when `index >= length()`; ESC.TEN datasets answer indices in
`[length(), row count)` and negative indices in `[-row count, 0)` are also
answered rather than failing. -/
theorem C7_getitem_bounds (csv : List EscRow) (categories : ESC) (i : ℤ)
    (hcat : categories ≠ ESC.TEN) (hi : 0 ≤ i) :
    (ESCDataset.getItem csv i).isSome = true ↔
      i < (ESCDataset.len csv categories : ℤ) := by
  have hlen : ESCDataset.len csv categories = csv.length := by
    cases categories with
    | TEN => exact absurd rfl hcat
    | FIFTY => rfl
    | TWO => rfl
  rw [hlen]
  rw [ESCDataset.getItem, iloc, if_neg (by omega)]
  have hmap : (Option.map (fun r : EscRow => (r.filename, r.target))
      csv[i.toNat]?).isSome = csv[i.toNat]?.isSome := by
    cases csv[i.toNat]? <;> rfl
  rw [hmap, getElem?_isSome_iff]
  omega

/-- Witness for C7 amended: on the two-row table with categories
ESC.FIFTY, index 5 fails because it is not below `length() = 2`. -/
theorem C7_getitem_bounds_witness :
    (ESCDataset.getItem escCsv 5).isSome = true ↔
      (5 : ℤ) < (ESCDataset.len escCsv ESC.FIFTY : ℤ) :=
  C7_getitem_bounds escCsv ESC.FIFTY 5 (by decide) (by decide)

/-- The mutable state the training engine owns during one run: Model
parameters, Adam optimizer state and OneCycleLR scheduler state. -/
structure EngineState (P O S : Type) where
  params : P
  opt : O
  sched : S

/-- The train phase of one epoch (models.py lines 63-81): each batch
updates parameters, optimizer and scheduler through the abstract
`trainStep` (zero_grad, forward, backward, optimizer.step,
scheduler.step). -/
def trainPhase {P O S B : Type}
    (trainStep : EngineState P O S → B → EngineState P O S)
    (st : EngineState P O S) (batches : List B) : EngineState P O S :=
  batches.foldl trainStep st

/-- The validation phase of one epoch (models.py lines 88-104): under
`torch.no_grad()` each batch only runs a forward pass from the current
parameters and accumulates loss and accuracy; the engine state is carried
through untouched, exactly as the code contains no backward, optimizer or
scheduler call in this block. -/
def validPhase {P O S B : Type} (lossOf accOf : P → B → ℚ)
    (st : EngineState P O S) (batches : List B) :
    EngineState P O S × ℚ × ℚ :=
  batches.foldl
    (fun acc b =>
      (acc.1, acc.2.1 + lossOf acc.1.params b, acc.2.2 + accOf acc.1.params b))
    (st, 0, 0)

/-- One full epoch of `train`: the train phase followed by the validation
phase; the returned state is what the next epoch starts from. -/
def epochStep {P O S B : Type}
    (trainStep : EngineState P O S → B → EngineState P O S)
    (lossOf accOf : P → B → ℚ) (st : EngineState P O S)
    (trainBatches validBatches : List B) : EngineState P O S × ℚ × ℚ :=
  validPhase lossOf accOf (trainPhase trainStep st trainBatches) validBatches

lemma validPhase_foldl_fst {P O S B : Type} (lossOf accOf : P → B → ℚ) :
    ∀ (batches : List B) (init : EngineState P O S × ℚ × ℚ),
      (batches.foldl
        (fun acc b =>
          (acc.1, acc.2.1 + lossOf acc.1.params b,
            acc.2.2 + accOf acc.1.params b))
        init).1 = init.1 := by
  intro batches
  induction batches with
  | nil =>
    intro init
    rfl
  | cons b bs ih =>
    intro init
    exact ih _

/-- Claim C8: the validation phase leaves the model parameters, the
optimizer state and the scheduler state unchanged — the state an epoch
hands to the next epoch is exactly the state at the end of its train
phase, so between the two train phases no parameter, optimizer or
scheduler update happens. -/
theorem C8_validation_is_pure {P O S B : Type}
    (trainStep : EngineState P O S → B → EngineState P O S)
    (lossOf accOf : P → B → ℚ) (st : EngineState P O S)
    (trainBatches validBatches : List B) :
    (validPhase lossOf accOf (trainPhase trainStep st trainBatches)
        validBatches).1 = trainPhase trainStep st trainBatches ∧
    (epochStep trainStep lossOf accOf st trainBatches validBatches).1.params
        = (trainPhase trainStep st trainBatches).params ∧
    (epochStep trainStep lossOf accOf st trainBatches validBatches).1.opt
        = (trainPhase trainStep st trainBatches).opt ∧
    (epochStep trainStep lossOf accOf st trainBatches validBatches).1.sched
        = (trainPhase trainStep st trainBatches).sched := by
  have h := validPhase_foldl_fst lossOf accOf validBatches
    ((trainPhase trainStep st trainBatches, 0, 0) :
      EngineState P O S × ℚ × ℚ)
  exact ⟨h, by rw [epochStep, validPhase, h], by rw [epochStep, validPhase, h],
    by rw [epochStep, validPhase, h]⟩
